import Mathlib

/-!
Verification of the time-axis reconstruction, daily-window stitching and QC
masking subsystem of the `ingests` repository.

The Lean definitions below are shallow embeddings of the Python sources:

* `src/scripts/ingest-aqt.py` / `src/scripts/aqt-ingest.py` (function
  `ingest_aqt`): QC masking of the AQT dataset on the humidity range
  `(0, 98)` and the persist-or-skip decision on `pm2.5`.
* `src/scripts/neiu/ceilometer-fix-time.py` (functions
  `get_modification_time`, `adjust_time_variable`, `process_file`):
  anchoring a relative time axis to the file modification time.
* `src/scripts/neiu/ceil_make_daily_files.py` (function `process_files`):
  three-day file selection, concatenation, sorting and day slicing.
* `src/scripts/mrr2-ingest.py` (`__main__` duplicate-removal loop).

Numbers that the Python code handles as floats are modelled as exact
rationals (`Rat`); timestamps handled by pandas/xarray at millisecond
resolution are modelled as integer milliseconds.  File names and paths are
modelled as `List Char` (Python compares strings lexicographically by code
point, which is exactly the order on `List Char`).
-/

/-! ### AQT ingest: records and QC masking (`ingest_aqt`) -/

/-- One row of the `aqvals` dataframe built by `ingest_aqt`: the time index
plus the eleven data variables.  A value of `none` models a missing value
(NaN) as produced by `xarray.Dataset.where`. -/
structure AQTRecord where
  time : Int
  pm25 : Option Rat
  pm10 : Option Rat
  pm100 : Option Rat
  no : Option Rat
  o3 : Option Rat
  no2 : Option Rat
  co : Option Rat
  temperature : Option Rat
  humidity : Option Rat
  pressure : Option Rat
  dewpoint : Option Rat
deriving DecidableEq, Repr

/-- The QC condition of `ingest_aqt`:
`cond = (0 < valsxr.humidity) & (valsxr.humidity < 98)`.
A missing humidity (NaN) compares false on both sides, as in numpy. -/
def humidityCond (r : AQTRecord) : Bool :=
  match r.humidity with
  | some h => decide (0 < h) && decide (h < 98)
  | none => false

/-- Masking one record: `xarray.Dataset.where(cond, drop=False)` keeps the
time index and replaces every data variable of a failing row with NaN. -/
def maskRecord (r : AQTRecord) : AQTRecord :=
  if humidityCond r then r
  else
    { time := r.time, pm25 := none, pm10 := none, pm100 := none,
      no := none, o3 := none, no2 := none, co := none,
      temperature := none, humidity := none, pressure := none,
      dewpoint := none }

/-- `valsxr = valsxr.where(cond, drop=False)` applied to the whole dataset. -/
def whereMask (ds : List AQTRecord) : List AQTRecord :=
  ds.map maskRecord

/-- `valsxr['pm2.5'].shape[0]` after the QC mask: the length of the time
dimension of the masked dataset. -/
def pm25Shape (ds : List AQTRecord) : Nat :=
  (whereMask ds).length

/-- The persist decision of `ingest_aqt`:
`if valsxr['pm2.5'].shape[0] > 0: valsxr.to_netcdf(...)`. -/
def ingestPersists (ds : List AQTRecord) : Bool :=
  decide (0 < pm25Shape ds)

/-- Count of non-missing `pm2.5` records in the masked dataset (the quantity
the specification's persist condition speaks about). -/
def nonMissingPM25 (ds : List AQTRecord) : Nat :=
  ((whereMask ds).filter (fun r => r.pm25.isSome)).length

/-- Outcome of the tail of `ingest_aqt`: either the file is written or the
unit of work is skipped with the log line `not saving... no data`. -/
inductive IngestResult where
  | savedFile : IngestResult
  | skippedNoData : IngestResult
deriving DecidableEq, Repr

/-- The save-or-skip step of `ingest_aqt`. -/
def ingestSaveStep (ds : List AQTRecord) : IngestResult :=
  if ingestPersists ds then IngestResult.savedFile else IngestResult.skippedNoData

/-- A record whose humidity fails the QC range but which carries a pm2.5
value; used to separate the record count from the non-missing count. -/
def aqtRecordHighHumidity : AQTRecord :=
  { time := 0, pm25 := some 5, pm10 := some 1, pm100 := some 1,
    no := some 1, o3 := some 1, no2 := some 1, co := some 1,
    temperature := some 20, humidity := some 99, pressure := some 1000,
    dewpoint := some 10 }

/-- All data variables of a record are missing. -/
def allMissing (r : AQTRecord) : Prop :=
  r.pm25 = none ∧ r.pm10 = none ∧ r.pm100 = none ∧ r.no = none ∧
  r.o3 = none ∧ r.no2 = none ∧ r.co = none ∧ r.temperature = none ∧
  r.humidity = none ∧ r.pressure = none ∧ r.dewpoint = none

/-- C1, counterexample: on a one-record dataset whose humidity `99` is
masked out, the masked `pm2.5` has zero non-missing records, yet
`ingest_aqt` still persists the file (it tests `shape[0] > 0`, the record
count, not the non-missing count).  The claimed equivalence is false. -/
theorem c1_counterexample :
    ¬ (ingestPersists [aqtRecordHighHumidity] = true ↔
        0 < nonMissingPM25 [aqtRecordHighHumidity]) := by
  decide

/-- C1, amended: the dataset is persisted if and only if the record count
of `pm2.5` after masking (which always equals the input record count,
masked records included) is greater than zero; when that count is zero the
write is skipped with a log message and no error is raised. -/
theorem c1_amended (ds : List AQTRecord) :
    pm25Shape ds = ds.length ∧
    (ingestSaveStep ds = IngestResult.savedFile ↔ 0 < ds.length) ∧
    (ds.length = 0 → ingestSaveStep ds = IngestResult.skippedNoData) := by
  have hlen : pm25Shape ds = ds.length := by
    simp [pm25Shape, whereMask]
  have hiff : ingestPersists ds = decide (0 < ds.length) := by
    simp [ingestPersists, hlen]
  refine ⟨hlen, ?_, ?_⟩
  · rw [ingestSaveStep, hiff]
    by_cases h : 0 < ds.length
    · simp [h]
    · simp [h]
  · intro h0
    rw [ingestSaveStep, hiff]
    simp [h0]

theorem whereMask_length (ds : List AQTRecord) :
    (whereMask ds).length = ds.length := by
  simp [whereMask]

theorem maskRecord_time (r : AQTRecord) : (maskRecord r).time = r.time := by
  by_cases hc : humidityCond r <;> simp [maskRecord, hc]

/-- C7: the QC mask with valid range `(0, 98)` on humidity never changes the
record count or the time index; a record whose humidity lies outside the
open interval `(0, 98)` has every data variable replaced by the missing
marker while its time index is kept, and an in-range record is unchanged. -/
theorem c7_qc_mask_preserves_shape (ds : List AQTRecord) :
    (whereMask ds).length = ds.length ∧
    (whereMask ds).map AQTRecord.time = ds.map AQTRecord.time ∧
    (∀ i : Nat, ∀ h : i < ds.length, ∀ hv : Rat,
      (ds.get ⟨i, h⟩).humidity = some hv →
      ((0 < hv ∧ hv < 98) →
        (whereMask ds).get ⟨i, by rw [whereMask_length]; exact h⟩ = ds.get ⟨i, h⟩) ∧
      (¬ (0 < hv ∧ hv < 98) →
        allMissing ((whereMask ds).get ⟨i, by rw [whereMask_length]; exact h⟩) ∧
        ((whereMask ds).get ⟨i, by rw [whereMask_length]; exact h⟩).time =
          (ds.get ⟨i, h⟩).time)) := by
  refine ⟨whereMask_length ds, ?_, ?_⟩
  · show (ds.map maskRecord).map AQTRecord.time = ds.map AQTRecord.time
    rw [List.map_map]
    exact List.map_congr_left (fun r _ => maskRecord_time r)
  · intro i h hv hhum
    simp only [List.get_eq_getElem] at hhum ⊢
    refine ⟨?_, ?_⟩
    · intro hin
      have hc : humidityCond ds[i] = true := by
        simp [humidityCond, hhum, hin.1, hin.2]
      simp [whereMask, List.getElem_map, maskRecord, hc]
    · intro hout
      have hc : humidityCond ds[i] = false := by
        simp [humidityCond, hhum]
        intro h1
        by_contra h2
        exact hout ⟨h1, by simpa using h2⟩
      refine ⟨?_, ?_⟩
      · simp [whereMask, List.getElem_map, maskRecord, hc, allMissing]
      · simp [whereMask, List.getElem_map, maskRecord, hc]

/-- An in-range record (humidity 50) used by the C7 witness. -/
def aqtRecordMidHumidity : AQTRecord :=
  { time := 1, pm25 := some 7, pm10 := some 2, pm100 := some 2,
    no := some 1, o3 := some 1, no2 := some 1, co := some 1,
    temperature := some 21, humidity := some 50, pressure := some 1000,
    dewpoint := some 11 }

/-- C7, witness: on the dataset `[humidity 50, humidity 99]` the in-range
record is untouched and the out-of-range record is fully masked. -/
theorem c7_witness :
    (whereMask [aqtRecordMidHumidity, aqtRecordHighHumidity]).get ⟨0, by decide⟩
      = [aqtRecordMidHumidity, aqtRecordHighHumidity].get ⟨0, by decide⟩ ∧
    allMissing
      ((whereMask [aqtRecordMidHumidity, aqtRecordHighHumidity]).get ⟨1, by decide⟩) := by
  have h := c7_qc_mask_preserves_shape [aqtRecordMidHumidity, aqtRecordHighHumidity]
  refine ⟨?_, ?_⟩
  · exact ((h.2.2 0 (by decide) 50 (by decide)).1 (by constructor <;> norm_num))
  · exact ((h.2.2 1 (by decide) 99 (by decide)).2 (by
      intro hcon
      have := hcon.2
      norm_num at this)).1

/-! ### Ceilometer time anchoring (`ceilometer-fix-time.py`) -/

/-- `get_modification_time`: `os.path.getmtime(file_path) - latency`,
converted to a UTC datetime.  Modelled on the epoch-seconds axis. -/
def get_modification_time (mtime latency : Rat) : Rat :=
  mtime - latency

/-- Midnight of the day containing `t` (UTC):
`datetime.datetime(mod_time.year, mod_time.month, mod_time.day)` on the
epoch-seconds axis. -/
def midnightOf (t : Rat) : Rat :=
  86400 * ((⌊t / 86400⌋ : Int) : Rat)

/-- `adjust_time_variable(time_var, mod_time, midnight)`: decode the stored
times (here given directly as absolute instants, in seconds on the same
axis as `mod_time`), form `delta_seconds[i] = t_i − t_0`,
`total_interval = t_last − t_0`,
`seconds_since_midnight = (mod_time − midnight) − total_interval`, and
store `seconds_since_midnight + delta_seconds[i]`.  An empty time variable
raises an `IndexError` which the function catches, leaving the variable
unmodified. -/
def adjust_time_variable : List Rat → Rat → Rat → List Rat
  | [], _, _ => []
  | t0 :: rest, mod_time, midnight =>
    let total_interval := (t0 :: rest).getLastD t0 - t0
    let seconds_since_midnight := (mod_time - midnight) - total_interval
    (t0 :: rest).map (fun t => seconds_since_midnight + (t - t0))

theorem adjust_time_variable_cons (t0 : Rat) (rest : List Rat) (a m : Rat) :
    adjust_time_variable (t0 :: rest) a m =
      (t0 :: rest).map
        (fun t => ((a - m) - ((t0 :: rest).getLastD t0 - t0)) + (t - t0)) := rfl

theorem adjust_time_variable_length (times : List Rat) (a m : Rat) :
    (adjust_time_variable times a m).length = times.length := by
  cases times with
  | nil => rfl
  | cons t0 rest => rw [adjust_time_variable_cons]; simp

/-- C2: for a nonempty time axis the corrected value written at the last
index is `(anchor − midnight)` seconds since the anchor day's midnight,
where `anchor = M − L`; hence with latency `L = 0` the corrected absolute
time of the last sample equals the modification time `M`. -/
theorem c2_anchor_alignment (times : List Rat) (M L : Rat) (h : times ≠ []) :
    (adjust_time_variable times (get_modification_time M L)
        (midnightOf (get_modification_time M L))).getLast? =
      some (get_modification_time M L - midnightOf (get_modification_time M L)) ∧
    (L = 0 →
      midnightOf (get_modification_time M L) +
        (adjust_time_variable times (get_modification_time M L)
          (midnightOf (get_modification_time M L))).getLastD 0 = M) := by
  obtain ⟨t0, rest, rfl⟩ : ∃ t0 rest, times = t0 :: rest := by
    cases times with
    | nil => exact absurd rfl h
    | cons a l => exact ⟨a, l, rfl⟩
  have hlast : (adjust_time_variable (t0 :: rest) (get_modification_time M L)
      (midnightOf (get_modification_time M L))).getLast? =
      some (get_modification_time M L - midnightOf (get_modification_time M L)) := by
    rw [adjust_time_variable_cons]
    rw [List.getLast?_map]
    have hcons : (t0 :: rest).getLast? = some ((t0 :: rest).getLastD t0) := by
      rw [List.getLastD_eq_getLast?]
      cases hg : (t0 :: rest).getLast? with
      | none => exact absurd hg (by simp)
      | some x => rfl
    rw [hcons]
    simp only [Option.map_some']
    congr 1
    ring
  refine ⟨hlast, ?_⟩
  intro hL
  rw [List.getLastD_eq_getLast?, hlast]
  simp [get_modification_time, hL]

/-- C2, witness: axis `[0, 60, 120, 180]`, modification time 28800 seconds
after the epoch (08:00 on the epoch day), latency 0. -/
theorem c2_witness :
    (adjust_time_variable [0, 60, 120, 180] (get_modification_time 28800 0)
        (midnightOf (get_modification_time 28800 0))).getLast? =
      some (get_modification_time 28800 0 - midnightOf (get_modification_time 28800 0)) ∧
    ((0 : Rat) = 0 →
      midnightOf (get_modification_time 28800 0) +
        (adjust_time_variable [0, 60, 120, 180] (get_modification_time 28800 0)
          (midnightOf (get_modification_time 28800 0))).getLastD 0 = 28800) :=
  c2_anchor_alignment [0, 60, 120, 180] 28800 0 (by decide)

/-- C3: the correction preserves the instrument's internal spacing between
consecutive samples exactly: `corrected[i+1] − corrected[i] = t_{i+1} − t_i`. -/
theorem c3_spacing_preservation (times : List Rat) (a m : Rat) (i : Nat)
    (h : i + 1 < times.length) :
    (adjust_time_variable times a m).get
        ⟨i + 1, by rw [adjust_time_variable_length]; exact h⟩ -
      (adjust_time_variable times a m).get
        ⟨i, by rw [adjust_time_variable_length]; omega⟩ =
    times.get ⟨i + 1, h⟩ - times.get ⟨i, by omega⟩ := by
  cases times with
  | nil => simp at h
  | cons t0 rest =>
    simp only [adjust_time_variable_cons, List.get_eq_getElem, List.getElem_map]
    ring

/-- C3, witness: axis `[0, 60, 150]` at `i = 1`, anchor 1000, midnight 0:
the corrected spacing equals the original spacing `150 − 60`. -/
theorem c3_witness :
    (adjust_time_variable [0, 60, 150] 1000 0).get ⟨2, by decide⟩ -
      (adjust_time_variable [0, 60, 150] 1000 0).get ⟨1, by decide⟩ =
    ([0, 60, 150] : List Rat).get ⟨2, by decide⟩ -
      ([0, 60, 150] : List Rat).get ⟨1, by decide⟩ :=
  c3_spacing_preservation [0, 60, 150] 1000 0 1 (by decide)

/-! ### Daily-window stitcher (`ceil_make_daily_files.py`) -/

/-- Matches of the glob pattern `*{date_str}*.nc` among the file names of
the input directory, sorted as by Python `sorted` (lexicographic by code
point; `List.insertionSort` is a stable ascending sort like Python's). -/
def dayMatches (files : List (List Char)) (dstr : List Char) : List (List Char) :=
  List.insertionSort (· ≤ ·)
    (files.filter (fun f => decide (dstr <:+: f) && decide (".nc".toList <:+ f)))

/-- `selected_files`: start from the current day's matches, insert the last
match of the previous day at position 0 when that list is non-empty, and
append the first match of the next day when that list is non-empty. -/
def selected_files (prev cur next : List (List Char)) : List (List Char) :=
  let s :=
    match prev.getLast? with
    | some p => p :: cur
    | none => cur
  match next.head? with
  | some n => s ++ [n]
  | none => s

/-- C4: `selected_files` equals the sorted matches of day `D` with the last
sorted match of `D−1` prepended when present and the first sorted match of
`D+1` appended when present; in particular, on the example directory
holding `prev = [f..19a, f..19b]`, `current = [f..20a, f..20b]`,
`next = [f..21a]` the selection is `[f..19b, f..20a, f..20b, f..21a]`. -/
theorem c4_selected_files (files : List (List Char)) (dPrev dCur dNext : List Char) :
    (selected_files (dayMatches files dPrev) (dayMatches files dCur)
        (dayMatches files dNext) =
      (dayMatches files dPrev).getLast?.toList ++ dayMatches files dCur ++
        (dayMatches files dNext).head?.toList) ∧
    selected_files
        (dayMatches
          ["f20240619a.nc".toList, "f20240620b.nc".toList, "f20240620a.nc".toList,
            "f20240621a.nc".toList, "f20240619b.nc".toList] "20240619".toList)
        (dayMatches
          ["f20240619a.nc".toList, "f20240620b.nc".toList, "f20240620a.nc".toList,
            "f20240621a.nc".toList, "f20240619b.nc".toList] "20240620".toList)
        (dayMatches
          ["f20240619a.nc".toList, "f20240620b.nc".toList, "f20240620a.nc".toList,
            "f20240621a.nc".toList, "f20240619b.nc".toList] "20240621".toList) =
      ["f20240619b.nc".toList, "f20240620a.nc".toList, "f20240620b.nc".toList,
        "f20240621a.nc".toList] := by
  constructor
  · cases hp : (dayMatches files dPrev).getLast? with
    | none =>
      cases hn : (dayMatches files dNext).head? with
      | none => simp [selected_files, hp, hn]
      | some n => simp [selected_files, hp, hn]
    | some p =>
      cases hn : (dayMatches files dNext).head? with
      | none => simp [selected_files, hp, hn]
      | some n => simp [selected_files, hp, hn]
  · decide

/-- One day of stitching after file selection: concatenate the records of
the selected files along time (`xr.open_mfdataset(..., concat_dim='time',
combine='nested')`), sort ascending by time (`sortby("time")`), and slice
to `[start_of_day, end_of_day − 1ms]`, both ends inclusive
(`sel(time=slice(start_of_day, end_of_day - pd.to_timedelta("1ms")))`).
Timestamps are integer milliseconds; one day is 86400000 ms. -/
def stitchRecords (recordLists : List (List Int)) (startOfDay : Int) : List Int :=
  let concatenated := recordLists.flatten
  let sorted := List.insertionSort (· ≤ ·) concatenated
  sorted.filter
    (fun t => decide (startOfDay ≤ t) && decide (t ≤ startOfDay + 86400000 - 1))

/-- Stitching one day from the selected file names, with `contents` giving
each file's record timestamps. -/
def processDayFiles (contents : List Char → List Int)
    (selected : List (List Char)) (startOfDay : Int) : List Int :=
  stitchRecords (selected.map contents) startOfDay

/-- Rendering of the specification's coverage clause (not of the code): the
dataset's time range covers at least `[startOfDay, startOfDay + 1 day)`,
i.e. its earliest record is at or before the window start and its latest
record reaches the window's last millisecond. -/
def coversDaySpec (records : List Int) (startOfDay : Int) : Prop :=
  (∃ t ∈ records, t ≤ startOfDay) ∧
  (∃ t ∈ records, startOfDay + 86400000 - 1 ≤ t)

/-- C5, counterexample: a day whose only candidate file holds a single
record at 06:00:00 has a non-empty candidate set, yet the stitched dataset
is `[21600000]`, whose time range does not cover `[D, D+1)`. -/
theorem c5_counterexample :
    dayMatches ["f20240620a.nc".toList] "20240620".toList ≠ [] ∧
    processDayFiles (fun _ => [21600000])
        (selected_files (dayMatches ["f20240620a.nc".toList] "20240619".toList)
          (dayMatches ["f20240620a.nc".toList] "20240620".toList)
          (dayMatches ["f20240620a.nc".toList] "20240621".toList)) 0 =
      [21600000] ∧
    ¬ coversDaySpec
        (processDayFiles (fun _ => [21600000])
          (selected_files (dayMatches ["f20240620a.nc".toList] "20240619".toList)
            (dayMatches ["f20240620a.nc".toList] "20240620".toList)
            (dayMatches ["f20240620a.nc".toList] "20240621".toList)) 0) 0 := by
  refine ⟨by decide, by decide, ?_⟩
  intro hcov
  have h1 := hcov.1
  revert h1
  decide

/-- C5, amended: after slicing, the stitched dataset contains no record
with timestamp before the day start or at/after the next day start. -/
theorem c5_amended_slice_bounds (contents : List Char → List Int)
    (selected : List (List Char)) (startOfDay t : Int)
    (h : t ∈ processDayFiles contents selected startOfDay) :
    startOfDay ≤ t ∧ t < startOfDay + 86400000 := by
  have hmem := List.of_mem_filter h
  simp only [Bool.and_eq_true, decide_eq_true_eq] at hmem
  exact ⟨hmem.1, by omega⟩

/-- C5, witness: the 06:00:00 record of the one-file day lies inside the
day window. -/
theorem c5_witness :
    (0 : Int) ≤ 21600000 ∧ (21600000 : Int) < 0 + 86400000 :=
  c5_amended_slice_bounds (fun _ => [21600000]) ["f20240620a.nc".toList] 0
    21600000 (by decide)

/-- C6: the stitched day's time axis is monotonic non-decreasing, and every
in-window record of the concatenation is retained with its multiplicity:
the pipeline is a sort followed by a slice, never a deduplication. -/
theorem c6_sorted_no_dedup (recordLists : List (List Int)) (startOfDay : Int) :
    List.Sorted (· ≤ ·) (stitchRecords recordLists startOfDay) ∧
    (∀ t : Int,
      (stitchRecords recordLists startOfDay).count t =
        (recordLists.flatten.filter
          (fun x => decide (startOfDay ≤ x) &&
            decide (x ≤ startOfDay + 86400000 - 1))).count t) := by
  constructor
  · exact List.Pairwise.filter _
      (List.sorted_insertionSort (· ≤ ·) recordLists.flatten)
  · intro t
    exact List.Perm.count_eq
      (List.Perm.filter _ (List.perm_insertionSort (· ≤ ·) recordLists.flatten)) t

/-! ### Stitcher driver loop (`process_files`) -/

/-- Outcome of one iteration of the `while current_date <= end_date` loop:
an output file written and logged, a `No files for day` warning, or an
exception caught and logged with the day key. -/
inductive DayOutcome where
  | wroteFile : Int → DayOutcome
  | warnedNoFiles : Int → DayOutcome
  | errorLogged : Int → DayOutcome
deriving DecidableEq, Repr

/-- The day key an outcome was logged with. -/
def DayOutcome.dayKey : DayOutcome → Int
  | wroteFile d => d
  | warnedNoFiles d => d
  | errorLogged d => d

/-- The days visited by the loop: every day from `startDay` to `endDay`
inclusive (days numbered by an integer day index). -/
def dayList (startDay endDay : Int) : List Int :=
  (List.range (endDay + 1 - startDay).toNat).map (fun (i : Nat) => startDay + (i : Int))

/-- The body of the `try` block for one day, without the enclosing
`except`: `raisesOn` says whether some step of the day (file open,
malformed data, write) raises; otherwise the day selects its files from
the three sorted candidate lists and either writes the daily file or logs
the `No files for day` warning. -/
def tryDay (cands : Int → List (List Char) × List (List Char) × List (List Char))
    (raisesOn : Int → Bool) (d : Int) : Except Unit DayOutcome :=
  if raisesOn d then Except.error ()
  else
    let c := cands d
    match selected_files c.1 c.2.1 c.2.2 with
    | [] => Except.ok (DayOutcome.warnedNoFiles d)
    | _ :: _ => Except.ok (DayOutcome.wroteFile d)

/-- The `process_files` loop: each day from start to end inclusive is
processed; an exception is caught (`except Exception as e`) and logged
with the day key, after which the loop advances to the next day. -/
def process_files (startDay endDay : Int)
    (cands : Int → List (List Char) × List (List Char) × List (List Char))
    (raisesOn : Int → Bool) : List DayOutcome :=
  (dayList startDay endDay).map (fun d =>
    match tryDay cands raisesOn d with
    | Except.ok r => r
    | Except.error _ => DayOutcome.errorLogged d)

theorem tryDay_dayKey (cands : Int → List (List Char) × List (List Char) × List (List Char))
    (raisesOn : Int → Bool) (d : Int) :
    (match tryDay cands raisesOn d with
      | Except.ok r => r
      | Except.error _ => DayOutcome.errorLogged d).dayKey = d := by
  unfold tryDay
  by_cases hr : raisesOn d
  · simp [hr, DayOutcome.dayKey]
  · simp only [hr, Bool.false_eq_true, if_false]
    cases hs : selected_files (cands d).1 (cands d).2.1 (cands d).2.2 with
    | nil => simp [DayOutcome.dayKey]
    | cons a l => simp [DayOutcome.dayKey]

/-- C8: the loop emits exactly one outcome per day, for every day from
start to end inclusive and in order, and never aborts: a day with an
exception yields an `errorLogged` outcome with that day's key and the
remaining days are still processed; a day with no exception and an empty
`selected_files` yields the `No files` warning and writes no output file. -/
theorem c8_batch_never_aborts (startDay endDay : Int)
    (cands : Int → List (List Char) × List (List Char) × List (List Char))
    (raisesOn : Int → Bool) :
    ((process_files startDay endDay cands raisesOn).map DayOutcome.dayKey =
      dayList startDay endDay) ∧
    (∀ d : Int, startDay ≤ d → d ≤ endDay → d ∈ dayList startDay endDay) ∧
    (∀ d : Int, d ∈ dayList startDay endDay → raisesOn d = true →
      DayOutcome.errorLogged d ∈ process_files startDay endDay cands raisesOn) ∧
    (∀ d : Int, d ∈ dayList startDay endDay → raisesOn d = false →
      selected_files (cands d).1 (cands d).2.1 (cands d).2.2 = [] →
      DayOutcome.warnedNoFiles d ∈ process_files startDay endDay cands raisesOn ∧
      DayOutcome.wroteFile d ∉ process_files startDay endDay cands raisesOn) := by
  refine ⟨?_, ?_, ?_, ?_⟩
  · unfold process_files
    rw [List.map_map]
    have hcg : ∀ d ∈ dayList startDay endDay,
        (DayOutcome.dayKey ∘ fun d =>
          match tryDay cands raisesOn d with
          | Except.ok r => r
          | Except.error _ => DayOutcome.errorLogged d) d = id d :=
      fun d _ => tryDay_dayKey cands raisesOn d
    rw [List.map_congr_left hcg, List.map_id]
  · intro d h1 h2
    have hx : (d - startDay).toNat < (endDay + 1 - startDay).toNat := by omega
    have hy : startDay + ((d - startDay).toNat : Int) = d := by omega
    show d ∈ (List.range (endDay + 1 - startDay).toNat).map (fun (i : Nat) => startDay + (i : Int))
    exact List.mem_map.mpr ⟨(d - startDay).toNat, List.mem_range.mpr hx, hy⟩
  · intro d hmem hr
    unfold process_files
    rw [List.mem_map]
    exact ⟨d, hmem, by simp [tryDay, hr]⟩
  · intro d hmem hr hsel
    constructor
    · unfold process_files
      rw [List.mem_map]
      exact ⟨d, hmem, by simp [tryDay, hr, hsel]⟩
    · intro hin
      unfold process_files at hin
      rw [List.mem_map] at hin
      obtain ⟨d2, hd2mem, hd2⟩ := hin
      have hkey := tryDay_dayKey cands raisesOn d2
      rw [hd2] at hkey
      have hdd : d = d2 := by simpa [DayOutcome.dayKey] using hkey
      rw [← hdd] at hd2
      simp [tryDay, hr, hsel] at hd2

/-! ### `process_file` never touches the original (`ceilometer-fix-time.py`) -/

/-- A tiny file-system model: an association list from path to file
content.  Content is the file's stored time-variable values; the claim
only needs that mutations target a path. -/
def storeLookup (s : List (List Char × List Rat)) (k : List Char) :
    Option (List Rat) :=
  match s with
  | [] => none
  | (k2, v) :: rest => if k2 = k then some v else storeLookup rest k

/-- Write (create or overwrite) the file at path `k`. -/
def storeWrite (s : List (List Char × List Rat)) (k : List Char)
    (v : List Rat) : List (List Char × List Rat) :=
  match s with
  | [] => [(k, v)]
  | (k2, v2) :: rest =>
    if k2 = k then (k2, v) :: rest else (k2, v2) :: storeWrite rest k v

/-- `shutil.copy(src, dst)`: raises `SameFileError` when the two paths name
the same file, raises when the source does not exist, and otherwise writes
the source's content at the destination.  `none` models the raise. -/
def shutil_copy (s : List (List Char × List Rat)) (src dst : List Char) :
    Option (List (List Char × List Rat)) :=
  if src = dst then none
  else
    match storeLookup s src with
    | none => none
    | some c => some (storeWrite s dst c)

/-- `process_file(original_file_path, latency)`: read the modification time
(`none` on failure: return with no output), compute the new path, copy the
original there, then open the copy and adjust its time axis in place.  Any
exception after the modification-time step is caught and logged.
`openOk` models whether `Dataset(new_file_path, 'r+')` succeeds, and
`adjustRaises` whether `adjust_time_variable` hits an exception (in which
case it leaves the variable unmodified). -/
def process_file (s : List (List Char × List Rat))
    (origPath newPath : List Char) (mtimeReadable : Bool) (openOk : Bool)
    (adjustRaises : Bool) (anchor midnight : Rat) :
    List (List Char × List Rat) :=
  if mtimeReadable = false then s
  else
    match shutil_copy s origPath newPath with
    | none => s
    | some s1 =>
      if openOk then
        match storeLookup s1 newPath with
        | some c =>
          storeWrite s1 newPath
            (if adjustRaises then c else adjust_time_variable c anchor midnight)
        | none => s1
      else s1

theorem storeLookup_storeWrite (s : List (List Char × List Rat))
    (k k2 : List Char) (v : List Rat) :
    storeLookup (storeWrite s k v) k2 =
      if k = k2 then some v else storeLookup s k2 := by
  induction s with
  | nil =>
    by_cases h : k = k2
    · simp [storeWrite, storeLookup, h]
    · simp [storeWrite, storeLookup, h]
  | cons hd tl ih =>
    obtain ⟨k3, v3⟩ := hd
    by_cases h3 : k3 = k
    · subst h3
      by_cases h : k3 = k2
      · subst h
        simp [storeWrite, storeLookup]
      · simp [storeWrite, storeLookup, h]
    · by_cases h : k3 = k2
      · subst h
        have hkk : k ≠ k3 := fun he => h3 he.symm
        simp [storeWrite, storeLookup, h3, hkk, ih]
      · simp [storeWrite, storeLookup, h3, h, ih]

/-- C9: whatever happens (unreadable modification time, same-path copy,
missing source, failed open, adjustment exception, or full success), the
content stored at the original path is unchanged by `process_file`: all
writes target the new path, and when the new path coincides with the
original the copy itself raises `SameFileError` first. -/
theorem c9_original_never_modified (s : List (List Char × List Rat))
    (origPath newPath : List Char) (mtimeReadable openOk adjustRaises : Bool)
    (anchor midnight : Rat) :
    storeLookup
        (process_file s origPath newPath mtimeReadable openOk adjustRaises
          anchor midnight) origPath =
      storeLookup s origPath := by
  have hlkW : origPath ≠ newPath →
      ∀ (s2 : List (List Char × List Rat)) (v : List Rat),
      storeLookup (storeWrite s2 newPath v) origPath = storeLookup s2 origPath := by
    intro hne s2 v
    rw [storeLookup_storeWrite]
    exact if_neg (fun he => hne he.symm)
  cases mtimeReadable with
  | false => rfl
  | true =>
    have hred : process_file s origPath newPath true openOk adjustRaises
        anchor midnight =
        match shutil_copy s origPath newPath with
        | none => s
        | some s1 =>
          if openOk then
            match storeLookup s1 newPath with
            | some c =>
              storeWrite s1 newPath
                (if adjustRaises then c else adjust_time_variable c anchor midnight)
            | none => s1
          else s1 := rfl
    rw [hred]
    cases hcopy : shutil_copy s origPath newPath with
    | none => rfl
    | some s1 =>
      unfold shutil_copy at hcopy
      by_cases heq : origPath = newPath
      · rw [if_pos heq] at hcopy
        exact absurd hcopy (by simp)
      · rw [if_neg heq] at hcopy
        cases hsrc : storeLookup s origPath with
        | none =>
          rw [hsrc] at hcopy
          simp at hcopy
        | some c =>
          rw [hsrc] at hcopy
          have hs1 : s1 = storeWrite s newPath c := by
            simp only at hcopy
            exact (Option.some_injective _ hcopy).symm
          subst hs1
          cases openOk with
          | false => simp [hlkW heq, hsrc]
          | true =>
            have hdst : storeLookup (storeWrite s newPath c) newPath = some c := by
              rw [storeLookup_storeWrite]
              simp
            simp only [if_true]
            rw [hdst]
            simp only
            rw [hlkW heq, hlkW heq, hsrc]

/-! ### MRR2 ingest duplicate removal (`mrr2-ingest.py`) -/

/-- Python `list.remove(x)`: delete the first element equal to `x`. -/
def pyListRemove (l : List (List Char)) (x : List Char) : List (List Char) :=
  match l with
  | [] => []
  | a :: rest => if a = x then rest else a :: pyListRemove rest x

/-- Python `f[-18:]`: the trailing 18 characters (the whole string when it
is shorter). -/
def last18 (f : List Char) : List Char :=
  f.drop (f.length - 18)

/-- The `for f in file_list` loop of `mrr2-ingest.py`, which mutates
`file_list` while iterating it.  CPython's list iterator keeps a cursor
`i` that advances by one after every yielded element, against the current
state of the list; `file_list.remove(f)` shifts the elements after `f`
one slot left, so the element right after a removed one is never yielded.
`fuel` bounds the iteration count; the cursor advances at every step, so
the initial list length is enough fuel. -/
def mrr2DedupGo : Nat → List (List Char) → Nat → List Char → List (List Char)
  | 0, l, _, _ => l
  | fuel + 1, l, i, cur_time =>
    if i < l.length then
      let f := l.getD i []
      let time_stamp := last18 f
      if cur_time = time_stamp then
        mrr2DedupGo fuel (pyListRemove l f) (i + 1) cur_time
      else
        mrr2DedupGo fuel l (i + 1) time_stamp
    else l

/-- The duplicate-removal pass: `cur_time = ""` then the mutating loop. -/
def mrr2Dedup (file_list : List (List Char)) : List (List Char) :=
  mrr2DedupGo file_list.length file_list 0 []

/-- C10: removing while iterating skips the element after the removed one.
For two files with equal trailing 18-character timestamps only the first
is kept, but for three consecutive files with equal timestamps only the
middle one is removed: the third is never visited, so the output still
holds two entries with the same timestamp. -/
theorem c10_dedup_skips_after_removal (a b c : List Char)
    (hne : a ≠ b) (hts : last18 a ≠ [])
    (hab : last18 a = last18 b) (hbc : last18 b = last18 c) :
    mrr2Dedup [a, b] = [a] ∧
    (mrr2Dedup [a, b, c] = [a, c] ∧ last18 a = last18 c) := by
  have hcur : ([] : List Char) ≠ last18 a := fun he => hts he.symm
  refine ⟨?_, ?_, hab.trans hbc⟩
  · show mrr2DedupGo 2 [a, b] 0 [] = [a]
    rw [mrr2DedupGo]
    rw [if_pos (by simp : 0 < [a, b].length)]
    simp only [List.getD_cons_zero]
    rw [if_neg hcur]
    rw [mrr2DedupGo]
    rw [if_pos (by simp : 1 < [a, b].length)]
    simp only [List.getD_cons_succ, List.getD_cons_zero]
    rw [if_pos hab]
    have hrm : pyListRemove [a, b] b = [a] := by
      unfold pyListRemove
      rw [if_neg hne]
      unfold pyListRemove
      rw [if_pos rfl]
    rw [hrm]
    rfl
  · show mrr2DedupGo 3 [a, b, c] 0 [] = [a, c]
    rw [mrr2DedupGo]
    rw [if_pos (by simp : 0 < [a, b, c].length)]
    simp only [List.getD_cons_zero]
    rw [if_neg hcur]
    rw [mrr2DedupGo]
    rw [if_pos (by simp : 1 < [a, b, c].length)]
    simp only [List.getD_cons_succ, List.getD_cons_zero]
    rw [if_pos hab]
    have hrm : pyListRemove [a, b, c] b = [a, c] := by
      unfold pyListRemove
      rw [if_neg hne]
      unfold pyListRemove
      rw [if_pos rfl]
    rw [hrm]
    rw [mrr2DedupGo]
    rw [if_neg (by simp : ¬ 2 < [a, c].length)]

/-- C10, witness: three download URLs that differ only in their leading
letter, all ending in the same 18-character timestamp
`20240620_120000.nc`. -/
theorem c10_witness :
    mrr2Dedup ["a-20240620_120000.nc".toList, "b-20240620_120000.nc".toList] =
      ["a-20240620_120000.nc".toList] ∧
    (mrr2Dedup ["a-20240620_120000.nc".toList, "b-20240620_120000.nc".toList,
        "c-20240620_120000.nc".toList] =
      ["a-20240620_120000.nc".toList, "c-20240620_120000.nc".toList] ∧
      last18 "a-20240620_120000.nc".toList = last18 "c-20240620_120000.nc".toList) :=
  c10_dedup_skips_after_removal "a-20240620_120000.nc".toList
    "b-20240620_120000.nc".toList "c-20240620_120000.nc".toList
    (by decide) (by decide) (by decide) (by decide)

/-- C1, witness: the empty dataset is skipped; a one-record dataset (even
one fully masked by QC) is saved. -/
theorem c1_amended_witness :
    ingestSaveStep [] = IngestResult.skippedNoData ∧
    ingestSaveStep [aqtRecordHighHumidity] = IngestResult.savedFile :=
  ⟨(c1_amended []).2.2 rfl, (c1_amended [aqtRecordHighHumidity]).2.1.mpr (by decide)⟩

/-- C8, witness: a two-day range in which no glob pattern matches on day 0
yields the `No files` warning for day 0 and writes no file for it. -/
theorem c8_witness :
    DayOutcome.warnedNoFiles 0 ∈
      process_files 0 1 (fun _ => ([], [], [])) (fun _ => false) ∧
    DayOutcome.wroteFile 0 ∉
      process_files 0 1 (fun _ => ([], [], [])) (fun _ => false) :=
  (c8_batch_never_aborts 0 1 (fun _ => ([], [], [])) (fun _ => false)).2.2.2 0
    (by decide) rfl rfl
